import Mathlib

/-!
Verification development for the `cv2` repository: a résumé (CV) editor that
stores JSON documents in an append-only SQLite table (`db.py`), serves them
over a small Flask API (`server.py`), and renders them to PDF with reportlab
(`build_cv.py`).

Strings are modelled as `List Char`.  JSON values of the Document shape
(§3 of the design: objects, arrays, strings, booleans, null — résumé
documents contain no numbers) are modelled by `Json`.  `json.dumps` /
`json.loads` from the Python standard library are modelled concretely by
`dumps` (compact separators, `ensure_ascii=False`) and `loads` (a fueled
recursive-descent parser for the JSON grammar); the round trip
`loads (dumps j) = some j` is proved below.
-/

abbrev Str := List Char

/-- JSON values of the Document shape (no numbers; résumé documents per the
data model consist of objects, arrays, strings, booleans and null).
Object members are kept in insertion order, mirroring Python dicts. -/
inductive Json where
  | null : Json
  | bool (b : Bool) : Json
  | str (s : Str) : Json
  | arr (xs : List Json) : Json
  | obj (kvs : List (Str × Json)) : Json

/-- Lowercase hexadecimal digit for a value below 16 (as used by Python's
json encoder in `\uXXXX` escapes). -/
def hexDigitChar (n : Nat) : Char :=
  if n < 10 then Char.ofNat (48 + n) else Char.ofNat (87 + n)

/-- Character escaping of Python `json.dumps` with `ensure_ascii=False`:
backslash, double quote, and control characters below 0x20 are escaped
(with short forms for backspace, tab, newline, form feed, carriage return),
everything else passes through unchanged. -/
def encodeChar (c : Char) : Str :=
  if c = '"' then ['\\', '"']
  else if c = '\\' then ['\\', '\\']
  else if c = '\x08' then ['\\', 'b']
  else if c = '\x09' then ['\\', 't']
  else if c = '\x0a' then ['\\', 'n']
  else if c = '\x0c' then ['\\', 'f']
  else if c = '\x0d' then ['\\', 'r']
  else if c.toNat < 32 then
    ['\\', 'u', '0', '0', hexDigitChar (c.toNat / 16), hexDigitChar (c.toNat % 16)]
  else [c]

/-- JSON string literal encoding: quote, escaped body, quote. -/
def encodeString (s : Str) : Str :=
  '"' :: (s.flatMap encodeChar ++ ['"'])

mutual
/-- Model of Python `json.dumps(data, ensure_ascii=False)` (as used by
`save_version` in `db.py`): compact default separators `", "` and `": "`. -/
def dumps : Json → Str
  | .null => ['n', 'u', 'l', 'l']
  | .bool b => if b then ['t', 'r', 'u', 'e'] else ['f', 'a', 'l', 's', 'e']
  | .str s => encodeString s
  | .arr xs => '[' :: (dumpsList xs ++ [']'])
  | .obj kvs => '\x7b' :: (dumpsObj kvs ++ ['\x7d'])

/-- Array elements joined by `", "`. -/
def dumpsList : List Json → Str
  | [] => []
  | [x] => dumps x
  | x :: y :: xs => dumps x ++ ',' :: ' ' :: dumpsList (y :: xs)

/-- Object members `"key": value` joined by `", "`. -/
def dumpsObj : List (Str × Json) → Str
  | [] => []
  | [(k, v)] => encodeString k ++ ':' :: ' ' :: dumps v
  | (k, v) :: m :: kvs =>
      encodeString k ++ ':' :: ' ' :: dumps v ++ ',' :: ' ' :: dumpsObj (m :: kvs)
end

/-- JSON whitespace accepted between tokens by the decoder. -/
def isJsonWs (c : Char) : Bool :=
  c = ' ' || c = '\t' || c = '\n' || c = '\r'

/-- Skip JSON whitespace. -/
def skipWs : Str → Str
  | [] => []
  | c :: r => if isJsonWs c then skipWs r else c :: r

/-- Value of a hexadecimal digit character. -/
def hexVal (c : Char) : Option Nat :=
  if '0' ≤ c ∧ c ≤ '9' then some (c.toNat - 48)
  else if 'a' ≤ c ∧ c ≤ 'f' then some (c.toNat - 87)
  else if 'A' ≤ c ∧ c ≤ 'F' then some (c.toNat - 55)
  else none

/-- Body of a JSON string literal (after the opening quote), strict mode:
raw control characters are rejected, escape sequences are decoded,
`\uXXXX` escapes in the surrogate range are rejected (surrogate pairs are
not modelled; `dumps` only ever emits `\u00XX`).  `acc` is the reversed
prefix decoded so far. -/
def parseStringBody : Str → Str → Option (Str × Str)
  | [], _ => none
  | c :: r, acc =>
    if c = '"' then some (acc.reverse, r)
    else if c = '\\' then
      match r with
      | [] => none
      | e :: r2 =>
        if e = '"' then parseStringBody r2 ('"' :: acc)
        else if e = '\\' then parseStringBody r2 ('\\' :: acc)
        else if e = '/' then parseStringBody r2 ('/' :: acc)
        else if e = 'b' then parseStringBody r2 ('\x08' :: acc)
        else if e = 'f' then parseStringBody r2 ('\x0c' :: acc)
        else if e = 'n' then parseStringBody r2 ('\x0a' :: acc)
        else if e = 'r' then parseStringBody r2 ('\x0d' :: acc)
        else if e = 't' then parseStringBody r2 ('\x09' :: acc)
        else if e = 'u' then
          match r2 with
          | a :: b :: c2 :: d :: r3 =>
            match hexVal a, hexVal b, hexVal c2, hexVal d with
            | some ha, some hb, some hc, some hd =>
              let n := ((ha * 16 + hb) * 16 + hc) * 16 + hd
              if n < 0xd800 ∨ 0xdfff < n then
                parseStringBody r3 (Char.ofNat n :: acc)
              else none
            | _, _, _, _ => none
          | _ => none
        else none
    else if c.toNat < 32 then none
    else parseStringBody r (c :: acc)

/-- One step of the JSON value parser: dispatch on the first
non-whitespace character; array and object bodies are delegated to the
element and member parsers of the next lower fuel level. -/
def pvStep (pe : Str → Option (List Json × Str))
    (pm : Str → Option (List (Str × Json) × Str)) (s : Str) : Option (Json × Str) :=
  match skipWs s with
  | [] => none
  | c :: r =>
    if c = 'n' then
      match r with
      | 'u' :: 'l' :: 'l' :: r2 => some (.null, r2)
      | _ => none
    else if c = 't' then
      match r with
      | 'r' :: 'u' :: 'e' :: r2 => some (.bool true, r2)
      | _ => none
    else if c = 'f' then
      match r with
      | 'a' :: 'l' :: 's' :: 'e' :: r2 => some (.bool false, r2)
      | _ => none
    else if c = '"' then
      match parseStringBody r [] with
      | some (str, r2) => some (.str str, r2)
      | none => none
    else if c = '[' then
      match skipWs r with
      | [] => none
      | c2 :: r2 =>
        if c2 = ']' then some (.arr [], r2)
        else
          match pe r with
          | some (xs, r3) => some (.arr xs, r3)
          | none => none
    else if c = '\x7b' then
      match skipWs r with
      | [] => none
      | c2 :: r2 =>
        if c2 = '\x7d' then some (.obj [], r2)
        else
          match pm r with
          | some (kvs, r3) => some (.obj kvs, r3)
          | none => none
    else none

/-- One step of the parser for the elements of a non-empty array body:
a value followed by `,` and more elements, or by the closing `]`. -/
def peStep (pv : Str → Option (Json × Str))
    (pe : Str → Option (List Json × Str)) (s : Str) : Option (List Json × Str) :=
  match pv s with
  | none => none
  | some (v, r) =>
    match skipWs r with
    | [] => none
    | c :: r2 =>
      if c = ',' then
        match pe r2 with
        | some (xs, r3) => some (v :: xs, r3)
        | none => none
      else if c = ']' then some ([v], r2)
      else none

/-- One step of the parser for the members of a non-empty object body:
a string key, `:`, a value, then `,` and more members or the closing
brace. -/
def pmStep (pv : Str → Option (Json × Str))
    (pm : Str → Option (List (Str × Json) × Str)) (s : Str) :
    Option (List (Str × Json) × Str) :=
  match skipWs s with
  | [] => none
  | c :: r =>
    if c = '"' then
      match parseStringBody r [] with
      | none => none
      | some (k, r2) =>
        match skipWs r2 with
        | [] => none
        | c2 :: r3 =>
          if c2 = ':' then
            match pv r3 with
            | none => none
            | some (v, r4) =>
              match skipWs r4 with
              | [] => none
              | c3 :: r5 =>
                if c3 = ',' then
                  match pm r5 with
                  | some (kvs, r6) => some ((k, v) :: kvs, r6)
                  | none => none
                else if c3 = '\x7d' then some ([(k, v)], r5)
                else none
          else none
    else none

/-- Fueled recursive-descent parser for the JSON grammar, modelling Python
`json.loads`.  Returns, in order: the value parser, the parser for the
remainder of a non-empty array (after `[`), and the parser for the
remainder of a non-empty object (after the opening brace). -/
def parseP : Nat →
    (Str → Option (Json × Str)) ×
    (Str → Option (List Json × Str)) ×
    (Str → Option (List (Str × Json) × Str))
  | 0 => (fun _ => none, fun _ => none, fun _ => none)
  | fuel + 1 =>
    ( pvStep (parseP fuel).2.1 (parseP fuel).2.2
    , peStep (parseP fuel).1 (parseP fuel).2.1
    , pmStep (parseP fuel).1 (parseP fuel).2.2 )

/-- JSON value parser (with fuel). -/
def parseValue (fuel : Nat) (s : Str) : Option (Json × Str) :=
  (parseP fuel).1 s

/-- Parser for the elements of a non-empty array, after the opening `[`. -/
def parseElems (fuel : Nat) (s : Str) : Option (List Json × Str) :=
  (parseP fuel).2.1 s

/-- Parser for the members of a non-empty object, after the opening brace. -/
def parseMembers (fuel : Nat) (s : Str) : Option (List (Str × Json) × Str) :=
  (parseP fuel).2.2 s

/-- Model of Python `json.loads`: parse one value, then require only
whitespace to remain (otherwise `json.loads` raises "Extra data").
`none` models a raised `JSONDecodeError`. -/
def loads (s : Str) : Option Json :=
  match parseValue (s.length + 1) s with
  | some (j, rest) => if skipWs rest = [] then some j else none
  | none => none

/-- Indentation prefix used by `json.dumps(..., indent=2)`. -/
def indentSp (level : Nat) : Str :=
  List.replicate (2 * level) ' '

mutual
/-- Model of Python `json.dumps(data, indent=2, ensure_ascii=False)`
(the serialization `save_cv` in `server.py` writes to the working file):
item separator `","` plus newline and indentation, key separator `": "`. -/
def dumpsInd : Json → Nat → Str
  | .null, _ => ['n', 'u', 'l', 'l']
  | .bool true, _ => ['t', 'r', 'u', 'e']
  | .bool false, _ => ['f', 'a', 'l', 's', 'e']
  | .str s, _ => encodeString s
  | .arr [], _ => ['[', ']']
  | .arr (x :: xs), level =>
      '[' :: '\n' :: (indentSp (level + 1) ++ dumpsIndList (x :: xs) (level + 1)
        ++ '\n' :: (indentSp level ++ [']']))
  | .obj [], _ => ['\x7b', '\x7d']
  | .obj (kv :: kvs), level =>
      '\x7b' :: '\n' :: (indentSp (level + 1) ++ dumpsIndObj (kv :: kvs) (level + 1)
        ++ '\n' :: (indentSp level ++ ['\x7d']))

/-- Array elements of the indented serialization, separated by `",\n"` plus
indentation. -/
def dumpsIndList : List Json → Nat → Str
  | [], _ => []
  | [x], level => dumpsInd x level
  | x :: y :: xs, level =>
      dumpsInd x level ++ ',' :: '\n' :: (indentSp level ++ dumpsIndList (y :: xs) level)

/-- Object members of the indented serialization. -/
def dumpsIndObj : List (Str × Json) → Nat → Str
  | [], _ => []
  | [(k, v)], level => encodeString k ++ ':' :: ' ' :: dumpsInd v level
  | (k, v) :: m :: kvs, level =>
      encodeString k ++ ':' :: ' ' :: dumpsInd v level
        ++ ',' :: '\n' :: (indentSp level ++ dumpsIndObj (m :: kvs) level)
end

/-! ## Version Store (`db.py`)

The SQLite table `cv_versions` is modelled as a list of rows in insertion
order together with the AUTOINCREMENT sequence counter (`seq` is the last
id handed out; since this system never deletes rows, `lastrowid` of an
insert is always `seq + 1`).  The server-assigned `created_at` timestamp
is passed in explicitly as a parameter (it models the database clock and
is never interpreted by any of the code under verification). -/

/-- One row of the `cv_versions` table. -/
structure Row where
  id : Nat
  data : Str
  created_at : Str
  source : Str
deriving DecidableEq

/-- The version store: rows in insertion order plus the AUTOINCREMENT
sequence counter. -/
structure DB where
  rows : List Row
  seq : Nat
deriving DecidableEq

/-- Model of `init_db`: a freshly created empty table. -/
def init_db : DB := ⟨[], 0⟩

/-- A single SQL `INSERT INTO cv_versions (data, source) VALUES (?, ?)`:
the new row gets id `seq + 1` (AUTOINCREMENT); returns the new store and
the `lastrowid`. -/
def insertRow (db : DB) (data : Str) (source : Str) (created_at : Str) : DB × Nat :=
  let id := db.seq + 1
  (⟨db.rows ++ [⟨id, data, created_at, source⟩], id⟩, id)

/-- Model of `save_version(data, source)` in `db.py`: serializes the
document with `json.dumps(data, ensure_ascii=False)`, appends a row and
returns `lastrowid`. -/
def save_version (db : DB) (data : Json) (source : Str) (created_at : Str) : DB × Nat :=
  insertRow db (dumps data) source created_at

/-- Model of `seed_from_json(path)` in `db.py`: if `COUNT(*)` is zero and
the file exists (modelled by `file = some contents`), insert the raw file
text as a row tagged "import"; otherwise do nothing. -/
def seed_from_json (db : DB) (file : Option Str) (created_at : Str) : DB :=
  if db.rows.length = 0 then
    match file with
    | some s => (insertRow db s ("import".toList) created_at).1
    | none => db
  else db

/-- Insertion step of the model of `ORDER BY id DESC`: place `r` before
the first row whose id is not larger. -/
def insertDesc (r : Row) : List Row → List Row
  | [] => [r]
  | x :: xs => if x.id ≤ r.id then r :: x :: xs else x :: insertDesc r xs

/-- Model of `SELECT ... ORDER BY id DESC`: rows sorted by descending id
(ids are unique in this store, so the order is fully determined). -/
def sortByIdDesc (rows : List Row) : List Row :=
  rows.foldr insertDesc []

/-- A Python expression `json.loads(text)` as used where the caller then
tests the result with `is None`: JSON `null` collapses to the absent
value (Python `None`), a parse failure is a raised exception (`.error`). -/
def pyLoads (s : Str) : Except Unit (Option Json) :=
  match loads s with
  | none => .error ()
  | some Json.null => .ok none
  | some j => .ok (some j)

/-- Model of `get_latest()` in `db.py`: the `data` of the row with the
highest id, deserialized; `none` when the table is empty (or the stored
text is JSON `null`, which Python's caller cannot distinguish from the
absent row); `.error` when `json.loads` raises. -/
def get_latest (db : DB) : Except Unit (Option Json) :=
  match (sortByIdDesc db.rows).head? with
  | none => .ok none
  | some r => pyLoads r.data

/-- Metadata record returned by `list_versions` (no document body). -/
structure VersionMeta where
  id : Nat
  created_at : Str
  source : Str
deriving DecidableEq

/-- Model of `list_versions(limit=50)` in `db.py`:
`SELECT id, created_at, source FROM cv_versions ORDER BY id DESC LIMIT ?`. -/
def list_versions (db : DB) (limit : Nat := 50) : List VersionMeta :=
  ((sortByIdDesc db.rows).take limit).map (fun r => ⟨r.id, r.created_at, r.source⟩)

/-- Full version record returned by `get_version`. -/
structure VersionRec where
  id : Nat
  data : Json
  created_at : Str
  source : Str

/-- Model of `get_version(version_id)` in `db.py`: the row with the given
id with its document body deserialized, or `none` when no row matches;
`.error` when `json.loads` raises on the stored text. -/
def get_version (db : DB) (version_id : Nat) : Except Unit (Option VersionRec) :=
  match db.rows.find? (fun r => r.id = version_id) with
  | none => .ok none
  | some r =>
    match loads r.data with
    | none => .error ()
    | some j => .ok (some ⟨r.id, j, r.created_at, r.source⟩)

instance : IsTrans Row (fun a b => a.id < b.id) :=
  ⟨fun _ _ _ h1 h2 => lt_trans h1 h2⟩

/-- Store invariant maintained by all operations of this system: row ids
are strictly increasing in insertion order and never exceed the
AUTOINCREMENT counter. -/
def WF (db : DB) : Prop :=
  List.Chain' (fun a b => a.id < b.id) db.rows ∧ ∀ r ∈ db.rows, r.id ≤ db.seq

instance (db : DB) : Decidable (WF db) :=
  inferInstanceAs (Decidable (_ ∧ _))

/-- A sequence of `save_version` calls: returns the final store and the
list of returned version ids in call order. -/
def runSaves (db : DB) : List (Json × Str × Str) → DB × List Nat
  | [] => (db, [])
  | (d, src, ts) :: rest =>
    let r := save_version db d src ts
    let r2 := runSaves r.1 rest
    (r2.1, r.2 :: r2.2)

/-! ## API Service (`server.py`)

The state a request handler can touch: the version store plus the working
file `cv.json` (`none` models a missing file). -/

/-- Server-side state: the version store and the `cv.json` working file. -/
structure ServerState where
  db : DB
  cvFile : Option Str

/-- The empty well-formed document skeleton returned by `get_cv` when
both the store and the working file are absent (`server.py` lines
27-35). -/
def skeletonDoc : Json :=
  Json.obj
    [ ("contact".toList, Json.obj
        [ ("name".toList, Json.str [])
        , ("email".toList, Json.str [])
        , ("phone".toList, Json.str [])
        , ("website".toList, Json.str [])
        , ("linkedin".toList, Json.str [])
        , ("github".toList, Json.str []) ])
    , ("summary".toList, Json.str [])
    , ("skills".toList, Json.arr [])
    , ("experience".toList, Json.arr [])
    , ("projects".toList, Json.arr [])
    , ("education".toList, Json.arr []) ]

/-- Model of `GET /api/cv` (`get_cv` in `server.py`): the latest stored
version; if that is absent and the working file exists, its parsed
contents; if still absent, the empty skeleton.  `.error` models an
uncaught exception (HTTP 500). -/
def get_cv (st : ServerState) : Except Unit Json :=
  match get_latest st.db with
  | .error e => .error e
  | .ok dataOpt =>
    match
      (match dataOpt, st.cvFile with
       | none, some s => pyLoads s
       | none, none => .ok none
       | some j, _ => .ok (some j) : Except Unit (Option Json)) with
    | .error e => .error e
    | .ok none => .ok skeletonDoc
    | .ok (some j) => .ok j

/-- Model of `PUT /api/cv` (`save_cv` in `server.py`): write the document
to the working file (`json.dumps(data, indent=2, ensure_ascii=False)`
plus a newline) and append a version row tagged "manual"; returns the new
state and the new version id. -/
def save_cv (st : ServerState) (data : Json) (created_at : Str) : ServerState × Nat :=
  let fileText := dumpsInd data 0 ++ ['\n']
  let r := save_version st.db data ("manual".toList) created_at
  (⟨r.1, some fileText⟩, r.2)

/-- Model of `GET /api/versions` (`versions_list` in `server.py`): calls
`list_versions()` with its default limit of 50; there is no way for the
client to pass a different limit. -/
def versions_list (db : DB) : List VersionMeta :=
  list_versions db

/-- HTTP response of `GET /api/versions/<vid>`. -/
inductive VersionResp where
  | okRec (v : VersionRec)
  | notFound (body : Json)
  | serverError
deriving Inhabited

/-- Model of `GET /api/versions/<vid>` (`versions_get` in `server.py`):
404 with an error payload when the id is unknown, otherwise the full
record. -/
def versions_get (db : DB) (vid : Nat) : VersionResp :=
  match get_version db vid with
  | .error _ => .serverError
  | .ok none => .notFound (Json.obj [("error".toList, Json.str ("not found".toList))])
  | .ok (some v) => .okRec v

/-! ## Document Renderer (`build_cv.py`)

The story passed to `doc.build` is modelled as a list of `Flowable`s.
Paragraph styles are carried by name only (`make_styles` sets fonts and
colors, a purely visual concern); table column widths are carried exactly
(in points, as rationals) because the width split is a claimed property.
A Python `KeyError` raised by a required-field access (`data["contact"]`,
`contact["name"]`, `exp["company"]`, `role["title"]`,
`edu["institution"]`, `proj["name"]`) is modelled by `.error`; since
`build_pdf` only creates and writes the output file in `doc.build(story)`
after the whole story list has been assembled, an `.error` result means
no output file is produced. -/

/-- Renderer errors: a Python `KeyError` carrying only the missing key
(dictionary indexing reports the key, not which entity or index it was
accessed on). -/
inductive RErr where
  | keyError (key : Str)
deriving DecidableEq

/-- One millimetre in points (`reportlab.lib.units.mm`), exactly. -/
def mm : ℚ := 72 / 25.4

/-- A4 page size in points (`reportlab.lib.pagesizes.A4`). -/
def A4 : ℚ × ℚ := (210 * mm, 297 * mm)

/-- Left/right page margin (`MARGIN_LR = 22 * mm`). -/
def MARGIN_LR : ℚ := 22 * mm

/-- Content width used by `build_pdf`: `A4[0] - 2 * MARGIN_LR`. -/
def content_width : ℚ := A4.1 - 2 * MARGIN_LR

/-- A flowable of the story list (structural model of the reportlab
flowables used by `build_cv.py`). -/
inductive Flowable where
  | spacer (h : ℚ)
  | spacedText (text : Str)
  | hrule
  | para (text : Str) (style : Str)
  | table (cells : List (Str × Str)) (colWidths : List ℚ)
  | pageBreak
deriving DecidableEq

/-- Model of `esc` in `build_cv.py` (`xml.sax.saxutils.escape`): replace
the ampersand, less-than and greater-than characters by entities. -/
def esc (s : Str) : Str :=
  s.flatMap fun c =>
    if c = '&' then "&amp;".toList
    else if c = '<' then "&lt;".toList
    else if c = '>' then "&gt;".toList
    else [c]

/-- Python `str.upper()` as applied by `SpacedText` to section titles. -/
def pyUpper (s : Str) : Str := s.map Char.toUpper

/-- Model of `section_header`: spacer, letter-spaced upper-cased title,
thin horizontal rule. -/
def section_header (title : Str) : List Flowable :=
  [.spacer (5.5 * mm), .spacedText (pyUpper title), .hrule]

/-- The `contact` object; `name` is required (`contact["name"]`), the
rest are read with `.get`. -/
structure Contact where
  name : Option Str
  email : Option Str
  phone : Option Str
  website : Option Str
  linkedin : Option Str
  github : Option Str
deriving DecidableEq

/-- A skills entry (`label` and `items`, both read with `.get`). -/
structure Skill where
  label : Option Str
  items : Option (List Str)
deriving DecidableEq

/-- A role inside an experience entry; `title` is required. -/
structure Role where
  title : Option Str
  period : Option Str
  description : Option Str
deriving DecidableEq

/-- An experience entry; `company` is required. -/
structure Experience where
  company : Option Str
  roles : Option (List Role)
  pageBreakAfter : Option Bool
deriving DecidableEq

/-- A projects entry; `name` is required. -/
structure Project where
  name : Option Str
  description : Option Str
  pageBreakAfter : Option Bool
deriving DecidableEq

/-- An education entry; `institution` is required. -/
structure Education where
  degree : Option Str
  institution : Option Str
  period : Option Str
  focus : Option (List Str)
  pageBreakAfter : Option Bool
deriving DecidableEq

/-- A structured document as consumed by `build_pdf`; only `contact`
is accessed with required indexing (`data["contact"]`), the other
top-level fields default to empty. -/
structure Doc where
  contact : Option Contact
  summary : Option Str
  skills : Option (List Skill)
  experience : Option (List Experience)
  projects : Option (List Project)
  education : Option (List Education)
deriving DecidableEq

/-- Python truthiness guard used for optional contact fields: emit the
escaped text exactly when the field is present and non-empty. -/
def contactItem (o : Option Str) : List Str :=
  match o with
  | some s => if s ≠ [] then [esc s] else []
  | none => []

/-- Model of `build_contact`: up to two rows joined with the
`NBSP NBSP · NBSP NBSP` separator; a row is only emitted when one of its
fields is present and non-empty. -/
def build_contact (contact : Contact) : List Flowable :=
  let sep : Str := [' ', ' ', '·', ' ', ' ']
  let row1 := contactItem contact.email ++ contactItem contact.phone ++ contactItem contact.website
  let row2 := contactItem contact.linkedin ++ contactItem contact.github
  (if row1 ≠ [] then [Flowable.para (List.intercalate sep row1) ("contact".toList)] else [])
    ++ (if row2 ≠ [] then [Flowable.para (List.intercalate sep row2) ("contact".toList)] else [])

/-- Emission of one skills entry (the loop body of `build_skills`): one
paragraph `<b>label:</b> v1, v2, ...` when both the label and the item
list are non-empty, nothing otherwise. -/
def skillEmit (skill : Skill) : List Flowable :=
  let label := esc (skill.label.getD [])
  let vals := skill.items.getD []
  if label ≠ [] ∧ vals ≠ [] then
    [Flowable.para (("<b>".toList ++ label ++ ":</b> ".toList)
      ++ List.intercalate (", ".toList) (vals.map esc)) ("body".toList)]
  else []

/-- Model of `build_skills` in `build_cv.py`. -/
def build_skills (skills : List Skill) : List Flowable :=
  section_header ("Skills".toList) ++ skills.flatMap skillEmit

/-- Python default `str.strip()` whitespace test (ASCII fragment). -/
def pyIsSpace (c : Char) : Bool :=
  c = ' ' || c = '\t' || c = '\n' || c = '\r' || c = '\x0b' || c = '\x0c'

/-- Python `str.strip()`. -/
def pyStrip (s : Str) : Str :=
  ((s.dropWhile pyIsSpace).reverse.dropWhile pyIsSpace).reverse

/-- Python `desc.split(". ")`: split on non-overlapping occurrences of
the two-character separator, scanning left to right (`acc` is the
reversed current fragment). -/
def splitDotSpace (acc : Str) : Str → List Str
  | [] => [acc.reverse]
  | '.' :: ' ' :: rest => acc.reverse :: splitDotSpace [] rest
  | c :: rest => splitDotSpace (c :: acc) rest

/-- The sentence list of a role description, as computed by
`build_experience`: split on `". "`, strip each fragment, drop empties,
and append a period to any fragment not already ending in one. -/
def sentencesOf (desc : Str) : List Str :=
  (((splitDotSpace [] desc).map pyStrip).filter (fun s => s ≠ [])).map
    (fun sent => if sent.getLast? = some '.' then sent else sent ++ ['.'])

/-- The bullet paragraphs emitted for one role description
(`build_experience`, the `if desc:` block): a `· NBSP NBSP` prefixed,
escaped paragraph per sentence; nothing when the description is empty. -/
def descBullets (desc : Str) : List Flowable :=
  if desc ≠ [] then
    (sentencesOf desc).map
      (fun sent => Flowable.para ('·' :: ' ' :: ' ' :: esc sent) ("bullet".toList))
  else []

/-- The two-column role header row of `build_experience`: bold
`company — title` on the left, the period right-aligned in a fixed
`22 * mm` wide column. -/
def roleHeaderTable (company title period : Str) (cw : ℚ) : Flowable :=
  Flowable.table
    [ (("<b>".toList ++ company ++ ' ' :: '—' :: ' ' :: title ++ "</b>".toList), "exp_title".toList)
    , (period, "exp_date".toList) ]
    [cw - 22 * mm, 22 * mm]

/-- The roles loop of `build_experience`; `role["title"]` is required. -/
def buildRoles (company : Str) (cw : ℚ) : List Role → Except RErr (List Flowable)
  | [] => .ok []
  | role :: rest =>
    match role.title with
    | none => .error (.keyError ("title".toList))
    | some title =>
      match buildRoles company cw rest with
      | .error e => .error e
      | .ok more =>
        .ok (roleHeaderTable company (esc title) (esc (role.period.getD [])) cw
          :: (descBullets (role.description.getD [])
            ++ Flowable.spacer (2.5 * mm) :: more))

/-- The companies loop of `build_experience`; `exp["company"]` is
required; an optional page break follows each entry. -/
def buildExps (cw : ℚ) : List Experience → Except RErr (List Flowable)
  | [] => .ok []
  | e :: rest =>
    match e.company with
    | none => .error (.keyError ("company".toList))
    | some company =>
      match buildRoles (esc company) cw (e.roles.getD []) with
      | .error e2 => .error e2
      | .ok rs =>
        match buildExps cw rest with
        | .error e2 => .error e2
        | .ok more =>
          .ok (rs ++ (if e.pageBreakAfter.getD false then [Flowable.pageBreak] else []) ++ more)

/-- Model of `build_experience` in `build_cv.py`. -/
def build_experience (experience : List Experience) (cw : ℚ) : Except RErr (List Flowable) :=
  match buildExps cw experience with
  | .error e => .error e
  | .ok body => .ok (section_header ("Experience".toList) ++ body)

/-- The projects loop of `build_projects`; `proj["name"]` is required. -/
def buildProjs : List Project → Except RErr (List Flowable)
  | [] => .ok []
  | p :: rest =>
    match p.name with
    | none => .error (.keyError ("name".toList))
    | some name =>
      match buildProjs rest with
      | .error e => .error e
      | .ok more =>
        .ok (Flowable.para ("<b>".toList ++ esc name ++ "</b>".toList) ("proj_name".toList)
          :: ((match p.description with
               | some d => if d ≠ [] then [Flowable.para (esc d) ("proj_desc".toList)] else []
               | none => [])
            ++ Flowable.spacer (2 * mm)
            :: (if p.pageBreakAfter.getD false then [Flowable.pageBreak] else []) ++ more))

/-- Model of `build_projects` in `build_cv.py`. -/
def build_projects (projects : List Project) : Except RErr (List Flowable) :=
  match buildProjs projects with
  | .error e => .error e
  | .ok body => .ok (section_header ("Projects".toList) ++ body)

/-- The education loop of `build_education`; `edu["institution"]` is
required; the header shows the degree when present, else the
institution; the institution line appears under the header only when a
degree was used as the header. -/
def buildEdus (cw : ℚ) : List Education → Except RErr (List Flowable)
  | [] => .ok []
  | edu :: rest =>
    let degree := esc (edu.degree.getD [])
    match edu.institution with
    | none => .error (.keyError ("institution".toList))
    | some inst0 =>
      let institution := esc inst0
      let period := esc (edu.period.getD [])
      let focus := edu.focus.getD []
      let main_text :=
        if degree ≠ [] then "<b>".toList ++ degree ++ "</b>".toList
        else "<b>".toList ++ institution ++ "</b>".toList
      match buildEdus cw rest with
      | .error e => .error e
      | .ok more =>
        .ok (Flowable.table [(main_text, "edu_main".toList), (period, "edu_date".toList)]
              [cw - 22 * mm, 22 * mm]
          :: ((if degree ≠ [] then [Flowable.para institution ("body".toList)] else [])
            ++ (if focus ≠ [] then
                  [Flowable.para (List.intercalate (", ".toList) (focus.map esc)) ("body".toList)]
                else [])
            ++ Flowable.spacer (2 * mm)
            :: (if edu.pageBreakAfter.getD false then [Flowable.pageBreak] else []) ++ more))

/-- Model of `build_education` in `build_cv.py`. -/
def build_education (education : List Education) (cw : ℚ) : Except RErr (List Flowable) :=
  match buildEdus cw education with
  | .error e => .error e
  | .ok body => .ok (section_header ("Education".toList) ++ body)

/-- Model of `build_pdf` in `build_cv.py`: assemble the full story in
source order (name heading, contact rows, summary, skills, experience,
projects, education).  The output file is only created by
`doc.build(story)` after this list is fully assembled, so an `.error`
(a raised `KeyError`) means no output file is written. -/
def build_pdf (data : Doc) : Except RErr (List Flowable) :=
  match data.contact with
  | none => .error (.keyError ("contact".toList))
  | some contact =>
    match contact.name with
    | none => .error (.keyError ("name".toList))
    | some name =>
      match build_experience (data.experience.getD []) content_width with
      | .error e => .error e
      | .ok expFls =>
        match build_projects (data.projects.getD []) with
        | .error e => .error e
        | .ok projFls =>
          match build_education (data.education.getD []) content_width with
          | .error e => .error e
          | .ok eduFls =>
            .ok ([Flowable.para (esc name) ("name".toList), Flowable.spacer (2 * mm)]
              ++ build_contact contact
              ++ (section_header ("Professional Summary".toList)
                  ++ [Flowable.para (esc (data.summary.getD [])) ("summary".toList)])
              ++ build_skills (data.skills.getD [])
              ++ expFls ++ projFls ++ eduFls)

/-! ## Proofs

First the JSON serialization round trip: `loads (dumps j) = some j`. -/

theorem hexVal_hexDigitChar : ∀ n, n < 16 → hexVal (hexDigitChar n) = some n := by
  decide

theorem parseStringBody_encode (s : Str) : ∀ (acc rest : Str),
    parseStringBody (s.flatMap encodeChar ++ '"' :: rest) acc = some (acc.reverse ++ s, rest) := by
  induction s with
  | nil =>
    intro acc rest
    rw [List.flatMap_nil, List.nil_append, parseStringBody.eq_def]
    simp
  | cons c s ih =>
    intro acc rest
    have hflat : (c :: s).flatMap encodeChar ++ '"' :: rest
        = encodeChar c ++ (s.flatMap encodeChar ++ '"' :: rest) := by
      simp [List.flatMap_cons, List.append_assoc]
    rw [hflat]
    by_cases hq : c = '"'
    · subst hq
      rw [show encodeChar '"' = ['\\', '"'] from rfl]
      rw [List.cons_append, List.cons_append, List.nil_append, parseStringBody.eq_def]
      simp [ih]
    · by_cases hb : c = '\\'
      · subst hb
        rw [show encodeChar '\\' = ['\\', '\\'] from rfl]
        rw [List.cons_append, List.cons_append, List.nil_append, parseStringBody.eq_def]
        simp [ih]
      · by_cases h8 : c = '\x08'
        · subst h8
          rw [show encodeChar '\x08' = ['\\', 'b'] from rfl]
          rw [List.cons_append, List.cons_append, List.nil_append, parseStringBody.eq_def]
          simp [ih]
        · by_cases h9 : c = '\x09'
          · subst h9
            rw [show encodeChar '\x09' = ['\\', 't'] from rfl]
            rw [List.cons_append, List.cons_append, List.nil_append, parseStringBody.eq_def]
            simp [ih]
          · by_cases ha : c = '\x0a'
            · subst ha
              rw [show encodeChar '\x0a' = ['\\', 'n'] from rfl]
              rw [List.cons_append, List.cons_append, List.nil_append, parseStringBody.eq_def]
              simp [ih]
            · by_cases hc : c = '\x0c'
              · subst hc
                rw [show encodeChar '\x0c' = ['\\', 'f'] from rfl]
                rw [List.cons_append, List.cons_append, List.nil_append, parseStringBody.eq_def]
                simp [ih]
              · by_cases hd : c = '\x0d'
                · subst hd
                  rw [show encodeChar '\x0d' = ['\\', 'r'] from rfl]
                  rw [List.cons_append, List.cons_append, List.nil_append, parseStringBody.eq_def]
                  simp [ih]
                · by_cases hlt : c.toNat < 32
                  · have hdiv : c.toNat / 16 < 16 := by omega
                    have hmod : c.toNat % 16 < 16 := Nat.mod_lt _ (by omega)
                    have henc : encodeChar c =
                        ['\\', 'u', '0', '0', hexDigitChar (c.toNat / 16),
                          hexDigitChar (c.toNat % 16)] := by
                      simp [encodeChar, hq, hb, h8, h9, ha, hc, hd, hlt]
                    rw [henc]
                    simp only [List.cons_append, List.nil_append]
                    rw [parseStringBody.eq_def]
                    simp only [reduceIte, hexVal_hexDigitChar _ hdiv, hexVal_hexDigitChar _ hmod]
                    have hv0 : hexVal '0' = some 0 := rfl
                    rw [hv0]
                    have hn : ((0 * 16 + 0) * 16 + c.toNat / 16) * 16 + c.toNat % 16 = c.toNat := by
                      omega
                    simp only [hn]
                    rw [if_pos (Or.inl (by omega : c.toNat < 55296))]
                    rw [Char.ofNat_toNat, ih]
                    simp
                  · have henc : encodeChar c = [c] := by
                      simp [encodeChar, hq, hb, h8, h9, ha, hc, hd, hlt]
                    rw [henc, List.cons_append, List.nil_append, parseStringBody.eq_def]
                    simp only [if_neg hq, if_neg hb, if_neg hlt]
                    rw [ih]
                    simp

theorem skipWs_not_ws {c : Char} (h : isJsonWs c = false) (l : Str) :
    skipWs (c :: l) = c :: l := by
  simp [skipWs, h]

theorem skipWs_space (l : Str) : skipWs (' ' :: l) = skipWs l := by
  simp [skipWs, isJsonWs]

theorem dumps_head (j : Json) :
    ∃ c t, dumps j = c :: t ∧ isJsonWs c = false ∧ c ≠ ']' := by
  cases j with
  | null => exact ⟨'n', _, rfl, by decide, by decide⟩
  | bool b =>
    cases b with
    | false => exact ⟨'f', _, rfl, by decide, by decide⟩
    | true => exact ⟨'t', _, rfl, by decide, by decide⟩
  | str s => exact ⟨'"', _, rfl, by decide, by decide⟩
  | arr xs => exact ⟨'[', _, rfl, by decide, by decide⟩
  | obj kvs => exact ⟨'\x7b', _, rfl, by decide, by decide⟩

theorem one_le_dumps_length (j : Json) : 1 ≤ (dumps j).length := by
  obtain ⟨c, t, h, -, -⟩ := dumps_head j
  simp [h]

theorem dumpsList_cons_decomp (x : Json) (xs : List Json) :
    ∃ m, dumpsList (x :: xs) = dumps x ++ m := by
  cases xs with
  | nil => exact ⟨[], by simp [dumpsList]⟩
  | cons y ys => exact ⟨',' :: ' ' :: dumpsList (y :: ys), rfl⟩

theorem dumpsObj_cons_head (k : Str) (v : Json) (ms : List (Str × Json)) :
    ∃ t, dumpsObj ((k, v) :: ms) = '"' :: t := by
  cases ms with
  | nil => exact ⟨_, rfl⟩
  | cons m ms2 => exact ⟨_, rfl⟩

theorem parseValue_succ (fuel : Nat) (s : Str) :
    parseValue (fuel + 1) s = pvStep (parseElems fuel) (parseMembers fuel) s := rfl

theorem parseElems_succ (fuel : Nat) (s : Str) :
    parseElems (fuel + 1) s = peStep (parseValue fuel) (parseElems fuel) s := rfl

theorem parseMembers_succ (fuel : Nat) (s : Str) :
    parseMembers (fuel + 1) s = pmStep (parseValue fuel) (parseMembers fuel) s := rfl

theorem parse_dumps (fuel : Nat) :
    (∀ (j : Json) (s rest : Str), skipWs s = dumps j ++ rest → (dumps j).length ≤ fuel →
      parseValue fuel s = some (j, rest))
    ∧ (∀ (x : Json) (xs : List Json) (s rest : Str),
        skipWs s = dumpsList (x :: xs) ++ ']' :: rest → (dumpsList (x :: xs)).length < fuel →
        parseElems fuel s = some (x :: xs, rest))
    ∧ (∀ (k : Str) (v : Json) (kvs : List (Str × Json)) (s rest : Str),
        skipWs s = dumpsObj ((k, v) :: kvs) ++ '\x7d' :: rest →
        (dumpsObj ((k, v) :: kvs)).length < fuel →
        parseMembers fuel s = some ((k, v) :: kvs, rest)) := by
  induction fuel with
  | zero =>
    refine ⟨?_, ?_, ?_⟩
    · intro j s rest _ hlen
      have := one_le_dumps_length j
      omega
    · intro x xs s rest _ hlen
      omega
    · intro k v kvs s rest _ hlen
      omega
  | succ fuel ih =>
    obtain ⟨ihP, ihE, ihM⟩ := ih
    refine ⟨?_, ?_, ?_⟩
    · -- value parser
      intro j s rest hskip hlen
      rw [parseValue_succ]
      cases j with
      | null =>
        have h2 : skipWs s = 'n' :: 'u' :: 'l' :: 'l' :: rest := by
          simpa [dumps] using hskip
        simp [pvStep, h2]
      | bool b =>
        cases b with
        | false =>
          have h2 : skipWs s = 'f' :: 'a' :: 'l' :: 's' :: 'e' :: rest := by
            simpa [dumps] using hskip
          simp [pvStep, h2]
        | true =>
          have h2 : skipWs s = 't' :: 'r' :: 'u' :: 'e' :: rest := by
            simpa [dumps] using hskip
          simp [pvStep, h2]
      | str str =>
        have h2 : skipWs s = '"' :: (str.flatMap encodeChar ++ '"' :: rest) := by
          simpa [dumps, encodeString] using hskip
        simp [pvStep, h2, parseStringBody_encode]
      | arr xs =>
        cases xs with
        | nil =>
          have h2 : skipWs s = '[' :: ']' :: rest := by
            simpa [dumps, dumpsList] using hskip
          simp [pvStep, h2, skipWs, isJsonWs]
        | cons x xs =>
          have h2 : skipWs s = '[' :: (dumpsList (x :: xs) ++ ']' :: rest) := by
            simpa [dumps] using hskip
          obtain ⟨c, t, hx, hws, hne⟩ := dumps_head x
          obtain ⟨m, hm⟩ := dumpsList_cons_decomp x xs
          have hR : skipWs (dumpsList (x :: xs) ++ ']' :: rest)
              = dumpsList (x :: xs) ++ ']' :: rest := by
            rw [hm, hx]
            simp [skipWs_not_ws hws]
          have hRc : dumpsList (x :: xs) ++ ']' :: rest
              = c :: (t ++ (m ++ ']' :: rest)) := by
            rw [hm, hx]; simp
          have key : parseElems fuel (dumpsList (x :: xs) ++ ']' :: rest)
              = some (x :: xs, rest) := by
            apply ihE x xs _ rest hR
            have := (by simpa [dumps] using hlen : (dumpsList (x :: xs)).length + 2 ≤ fuel + 1)
            omega
          have key2 : parseElems fuel (c :: (t ++ (m ++ ']' :: rest)))
              = some (x :: xs, rest) := by
            rw [← hRc]; exact key
          rw [pvStep.eq_def, h2]
          simp only []
          rw [hRc]
          simp [skipWs_not_ws hws, hne, key2]
      | obj kvs =>
        cases kvs with
        | nil =>
          have h2 : skipWs s = '\x7b' :: '\x7d' :: rest := by
            simpa [dumps, dumpsObj] using hskip
          simp [pvStep, h2, skipWs, isJsonWs]
        | cons kv kvs =>
          obtain ⟨k, v⟩ := kv
          have h2 : skipWs s = '\x7b' :: (dumpsObj ((k, v) :: kvs) ++ '\x7d' :: rest) := by
            simpa [dumps] using hskip
          obtain ⟨t, ht⟩ := dumpsObj_cons_head k v kvs
          have hR : skipWs (dumpsObj ((k, v) :: kvs) ++ '\x7d' :: rest)
              = dumpsObj ((k, v) :: kvs) ++ '\x7d' :: rest := by
            rw [ht]
            simp [skipWs_not_ws (by decide : isJsonWs '"' = false)]
          have hRc : dumpsObj ((k, v) :: kvs) ++ '\x7d' :: rest
              = '"' :: (t ++ '\x7d' :: rest) := by
            rw [ht]; simp
          have key : parseMembers fuel (dumpsObj ((k, v) :: kvs) ++ '\x7d' :: rest)
              = some ((k, v) :: kvs, rest) := by
            apply ihM k v kvs _ rest hR
            have := (by simpa [dumps] using hlen :
              (dumpsObj ((k, v) :: kvs)).length + 2 ≤ fuel + 1)
            omega
          have key2 : parseMembers fuel ('"' :: (t ++ '\x7d' :: rest))
              = some ((k, v) :: kvs, rest) := by
            rw [← hRc]; exact key
          rw [pvStep.eq_def, h2]
          simp only []
          rw [hRc]
          simp [skipWs_not_ws (by decide : isJsonWs '"' = false), key2]
    · -- array elements parser
      intro x xs s rest hskip hlen
      rw [parseElems_succ]
      cases xs with
      | nil =>
        have hx : skipWs s = dumps x ++ ']' :: rest := by
          simpa [dumpsList] using hskip
        have hv : parseValue fuel s = some (x, ']' :: rest) := by
          apply ihP x s _ hx
          have : (dumps x).length < fuel + 1 := by simpa [dumpsList] using hlen
          omega
        simp [peStep, hv, skipWs, isJsonWs]
      | cons y ys =>
        have hsplit : dumpsList (x :: y :: ys)
            = dumps x ++ ',' :: ' ' :: dumpsList (y :: ys) := rfl
        have hx : skipWs s = dumps x ++ (',' :: ' ' :: (dumpsList (y :: ys) ++ ']' :: rest)) := by
          simpa [hsplit] using hskip
        have hlen2 : (dumps x).length + ((dumpsList (y :: ys)).length + 1 + 1) < fuel + 1 := by
          simpa [hsplit] using hlen
        have hv : parseValue fuel s = some (x, ',' :: ' ' :: (dumpsList (y :: ys) ++ ']' :: rest)) := by
          apply ihP x s _ hx
          omega
        obtain ⟨c, t, hy, hws, -⟩ := dumps_head y
        obtain ⟨m, hm⟩ := dumpsList_cons_decomp y ys
        have hrec : parseElems fuel (' ' :: (dumpsList (y :: ys) ++ ']' :: rest))
            = some (y :: ys, rest) := by
          apply ihE y ys _ rest
          · rw [skipWs_space, hm, hy]
            simp [skipWs_not_ws hws]
          · have := one_le_dumps_length x
            omega
        simp [peStep, hv, skipWs, isJsonWs, hrec]
    · -- object members parser
      intro k v kvs s rest hskip hlen
      rw [parseMembers_succ]
      cases kvs with
      | nil =>
        have hobj : dumpsObj [(k, v)] = encodeString k ++ ':' :: ' ' :: dumps v := rfl
        have h2 : skipWs s
            = '"' :: (k.flatMap encodeChar ++ '"' :: (':' :: ' ' :: (dumps v ++ '\x7d' :: rest))) := by
          simpa [hobj, encodeString] using hskip
        obtain ⟨c, t, hv1, hws, -⟩ := dumps_head v
        have hval : parseValue fuel (' ' :: (dumps v ++ '\x7d' :: rest))
            = some (v, '\x7d' :: rest) := by
          apply ihP v _ _
          · rw [skipWs_space, hv1]
            simp [skipWs_not_ws hws]
          · have hk : 2 ≤ (encodeString k).length := by simp [encodeString]
            have := (by simpa [hobj] using hlen :
              (encodeString k).length + ((dumps v).length + 1 + 1) < fuel + 1)
            omega
        simp [pmStep, h2, parseStringBody_encode, skipWs, isJsonWs, hval]
      | cons m ms =>
        obtain ⟨k2, v2⟩ := m
        have hobj : dumpsObj ((k, v) :: (k2, v2) :: ms)
            = encodeString k ++ ':' :: ' ' :: dumps v
              ++ ',' :: ' ' :: dumpsObj ((k2, v2) :: ms) := rfl
        have h2 : skipWs s
            = '"' :: (k.flatMap encodeChar
              ++ '"' :: (':' :: ' ' :: (dumps v
                ++ ',' :: ' ' :: (dumpsObj ((k2, v2) :: ms) ++ '\x7d' :: rest)))) := by
          simpa [hobj, encodeString] using hskip
        obtain ⟨c, t, hv1, hws, -⟩ := dumps_head v
        have hlen2 : (encodeString k).length + ((dumps v).length
            + ((dumpsObj ((k2, v2) :: ms)).length + 1 + 1) + 1 + 1) < fuel + 1 := by
          simpa [hobj] using hlen
        have hval : parseValue fuel
            (' ' :: (dumps v ++ ',' :: ' ' :: (dumpsObj ((k2, v2) :: ms) ++ '\x7d' :: rest)))
            = some (v, ',' :: ' ' :: (dumpsObj ((k2, v2) :: ms) ++ '\x7d' :: rest)) := by
          apply ihP v _ _
          · rw [skipWs_space, hv1]
            simp [skipWs_not_ws hws]
          · have hk : 2 ≤ (encodeString k).length := by simp [encodeString]
            omega
        obtain ⟨t2, ht2⟩ := dumpsObj_cons_head k2 v2 ms
        have hrec : parseMembers fuel (' ' :: (dumpsObj ((k2, v2) :: ms) ++ '\x7d' :: rest))
            = some ((k2, v2) :: ms, rest) := by
          apply ihM k2 v2 ms _ rest
          · rw [skipWs_space, ht2]
            simp [skipWs_not_ws (by decide : isJsonWs '"' = false)]
          · have hk : 2 ≤ (encodeString k).length := by simp [encodeString]
            have := one_le_dumps_length v
            omega
        simp [pmStep, h2, parseStringBody_encode, skipWs, isJsonWs, hval, hrec]

theorem loads_dumps (j : Json) : loads (dumps j) = some j := by
  have h0 : skipWs (dumps j) = dumps j ++ [] := by
    obtain ⟨c, t, h, hws, -⟩ := dumps_head j
    rw [h, skipWs_not_ws hws]
    simp
  have := (parse_dumps ((dumps j).length + 1)).1 j (dumps j) [] h0 (by omega)
  rw [loads, this]
  simp [skipWs]

theorem insertDesc_all_gt (r : Row) : ∀ (l : List Row), (∀ x ∈ l, r.id < x.id) →
    insertDesc r l = l ++ [r] := by
  intro l
  induction l with
  | nil => intro _; rfl
  | cons x xs ih =>
    intro h
    have hx : r.id < x.id := h x (by simp)
    rw [insertDesc, if_neg (by omega), ih (fun y hy => h y (by simp [hy]))]
    simp

theorem sortByIdDesc_of_chain' : ∀ (l : List Row),
    List.Chain' (fun a b => a.id < b.id) l → sortByIdDesc l = l.reverse := by
  intro l
  induction l with
  | nil => intro _; rfl
  | cons a l ih =>
    intro h
    have h1 : sortByIdDesc (a :: l) = insertDesc a (sortByIdDesc l) := rfl
    rw [h1, ih h.tail]
    rw [insertDesc_all_gt a l.reverse (fun x hx => by
      have hp := List.chain'_iff_pairwise.mp h
      exact List.rel_of_pairwise_cons hp (List.mem_reverse.mp hx))]
    simp

theorem chain'_lt_range' (n : Nat) : ∀ (a : Nat),
    List.Chain' (fun x y => x < y) (List.range' a n) := by
  induction n with
  | zero => intro a; simp
  | succ n ih =>
    intro a
    rw [List.range'_succ]
    cases n with
    | zero => simp
    | succ n2 =>
      rw [List.range'_succ]
      exact List.chain'_cons.mpr ⟨by omega, by rw [← List.range'_succ]; exact ih (a + 1)⟩

theorem runSaves_spec (ins : List (Json × Str × Str)) : ∀ (db : DB),
    (runSaves db ins).1.seq = db.seq + ins.length
    ∧ (runSaves db ins).2 = List.range' (db.seq + 1) ins.length
    ∧ ∃ newRows, (runSaves db ins).1.rows = db.rows ++ newRows
        ∧ newRows.map (fun r => r.id) = List.range' (db.seq + 1) ins.length := by
  induction ins with
  | nil =>
    intro db
    exact ⟨rfl, rfl, [], by simp [runSaves], rfl⟩
  | cons x rest ih =>
    intro db
    obtain ⟨d, src, ts⟩ := x
    have hrun : runSaves db ((d, src, ts) :: rest)
        = ((runSaves ⟨db.rows ++ [⟨db.seq + 1, dumps d, ts, src⟩], db.seq + 1⟩ rest).1,
           (db.seq + 1) :: (runSaves ⟨db.rows ++ [⟨db.seq + 1, dumps d, ts, src⟩], db.seq + 1⟩ rest).2) := rfl
    obtain ⟨hseq, hsnd, newRows, hrows, hids⟩ :=
      ih ⟨db.rows ++ [⟨db.seq + 1, dumps d, ts, src⟩], db.seq + 1⟩
    refine ⟨?_, ?_, ⟨db.seq + 1, dumps d, ts, src⟩ :: newRows, ?_, ?_⟩
    · rw [hrun]; simp at hseq ⊢; omega
    · rw [hrun]; simp at hsnd ⊢
      rw [hsnd, List.range'_succ]
    · rw [hrun]; simp at hrows ⊢; rw [hrows]
    · simp at hids ⊢
      rw [hids, List.range'_succ]

theorem rows_chain_append (db : DB) (hwf : WF db) (newRows : List Row) (n : Nat)
    (hids : newRows.map (fun r => r.id) = List.range' (db.seq + 1) n) :
    List.Chain' (fun a b => a.id < b.id) (db.rows ++ newRows) := by
  rw [List.chain'_append]
  refine ⟨hwf.1, ?_, ?_⟩
  · exact (List.chain'_map (fun r : Row => r.id)).mp (hids ▸ chain'_lt_range' n (db.seq + 1))
  · intro x hx y hy
    have hxm : x ∈ db.rows := by
      cases hl : db.rows.getLast? with
      | none => simp [hl] at hx
      | some a =>
        simp [hl] at hx
        subst hx
        have hrev : db.rows.reverse.head? = some a := by
          rw [List.head?_reverse, hl]
        exact List.mem_reverse.mp (List.mem_of_mem_head? (by rw [hrev]; rfl))
    have hxle : x.id ≤ db.seq := hwf.2 x hxm
    cases newRows with
    | nil => simp at hy
    | cons y0 ys =>
      simp at hy
      cases n with
      | zero => simp at hids
      | succ n2 =>
        rw [List.range'_succ] at hids
        have hy0 : y0.id = db.seq + 1 := by
          have := congrArg List.head? hids
          simpa using this
        rw [← hy]
        omega

theorem list_versions_after_saves (db : DB) (ins : List (Json × Str × Str)) (hwf : WF db) :
    ∀ k, k ≤ ins.length →
      (list_versions (runSaves db ins).1 k).map (fun m => m.id)
        = (runSaves db ins).2.reverse.take k := by
  obtain ⟨hseq, hsnd, newRows, hrows, hids⟩ := runSaves_spec ins db
  have hchain := rows_chain_append db hwf newRows ins.length hids
  have hsort : sortByIdDesc (db.rows ++ newRows) = (db.rows ++ newRows).reverse :=
    sortByIdDesc_of_chain' _ hchain
  have hlen : newRows.length = ins.length := by
    have := congrArg List.length hids
    simpa using this
  intro k hk
  rw [list_versions, hrows, hsort, List.reverse_append]
  rw [List.take_append_of_le_length (by simp [hlen]; omega)]
  rw [hsnd]
  rw [← hids, ← List.map_reverse, ← List.map_take]
  simp [List.map_map, Function.comp_def]

/-- Claim C2: starting from any well-formed store, a sequence of N
`save_version` calls returns strictly increasing version ids;
`list_versions` with limit N then returns exactly those ids most-recent
first, and for any `k ≤ N` the limit-k listing is exactly the k most
recent ids. -/
theorem C2_save_ids_strictly_increasing_and_listed (db : DB)
    (ins : List (Json × Str × Str)) (hwf : WF db) :
    List.Chain' (fun a b => a < b) (runSaves db ins).2
    ∧ (list_versions (runSaves db ins).1 ins.length).map (fun m => m.id)
        = (runSaves db ins).2.reverse
    ∧ (∀ k, k ≤ ins.length →
        (list_versions (runSaves db ins).1 k).map (fun m => m.id)
          = (runSaves db ins).2.reverse.take k) := by
  have main := list_versions_after_saves db ins hwf
  obtain ⟨hseq, hsnd, -⟩ := runSaves_spec ins db
  refine ⟨?_, ?_, main⟩
  · rw [hsnd]; exact chain'_lt_range' ins.length (db.seq + 1)
  · have := main ins.length le_rfl
    rw [this, List.take_of_length_le (by simp [hsnd])]

/-- Claim C1: saving a document via the PUT endpoint and then calling the
GET endpoint returns exactly the saved document (the JSON
serialize/deserialize round trip is the identity); documents are JSON
objects, in particular not `null`. -/
theorem C1_put_then_get_returns_saved (st : ServerState) (D : Json) (ts : Str)
    (hwf : WF st.db) (hD : D ≠ Json.null) :
    get_cv (save_cv st D ts).1 = .ok D := by
  have hchain := rows_chain_append st.db hwf [⟨st.db.seq + 1, dumps D, ts, "manual".toList⟩] 1
    (by simp [List.range'_succ])
  have hsort := sortByIdDesc_of_chain' _ hchain
  have hhead : (sortByIdDesc (st.db.rows ++ [⟨st.db.seq + 1, dumps D, ts, "manual".toList⟩])).head?
      = some ⟨st.db.seq + 1, dumps D, ts, "manual".toList⟩ := by
    rw [hsort, List.reverse_append]
    simp
  show get_cv ⟨⟨st.db.rows ++ [⟨st.db.seq + 1, dumps D, ts, "manual".toList⟩], st.db.seq + 1⟩,
      some (dumpsInd D 0 ++ ['\x0a'])⟩ = .ok D
  rw [get_cv, get_latest]
  simp only [hhead]
  rw [pyLoads, loads_dumps]
  cases D with
  | null => exact absurd rfl hD
  | bool b => rfl
  | str s => rfl
  | arr xs => rfl
  | obj kvs => rfl

/-- Claim C6: the GET current-document endpoint returns the latest stored
version when the store is non-empty (whenever that version's text parses
to a document, i.e. a non-null JSON value); with an empty store it falls
back to the working file's parsed contents; and with no file either it
returns the empty well-formed skeleton with all six top-level fields
present and empty. -/
theorem C6_get_cv_latest_file_skeleton (st : ServerState) :
    (∀ r j, (sortByIdDesc st.db.rows).head? = some r → loads r.data = some j →
        j ≠ Json.null → get_cv st = .ok j)
    ∧ (∀ s j, st.db.rows = [] → st.cvFile = some s → loads s = some j →
        j ≠ Json.null → get_cv st = .ok j)
    ∧ (st.db.rows = [] → st.cvFile = none → get_cv st = .ok skeletonDoc) := by
  refine ⟨?_, ?_, ?_⟩
  · intro r j hr hj hne
    rw [get_cv, get_latest]
    simp only [hr]
    rw [pyLoads, hj]
    cases j with
    | null => exact absurd rfl hne
    | bool b => rfl
    | str s => rfl
    | arr xs => rfl
    | obj kvs => rfl
  · intro s j hrows hfile hj hne
    rw [get_cv, get_latest, hrows]
    simp only [sortByIdDesc, List.foldr_nil, List.head?_nil, hfile]
    rw [pyLoads, hj]
    cases j with
    | null => exact absurd rfl hne
    | bool b => rfl
    | str s => rfl
    | arr xs => rfl
    | obj kvs => rfl
  · intro hrows hfile
    rw [get_cv, get_latest, hrows, hfile]
    rfl

/-- Claim C7: `seed_from_json` inserts the file's contents as the first
version tagged "import" exactly when the store has zero rows and the file
exists; in every other case the store is unchanged. -/
theorem C7_seed_from_json_exactly_when_empty (db : DB) (file : Option Str) (ts : Str) :
    (∀ s, db.rows = [] → file = some s →
        seed_from_json db file ts
          = ⟨[⟨db.seq + 1, s, ts, "import".toList⟩], db.seq + 1⟩)
    ∧ ((db.rows ≠ [] ∨ file = none) → seed_from_json db file ts = db) := by
  constructor
  · intro s hrows hfile
    simp [seed_from_json, hrows, hfile, insertRow]
  · intro h
    cases h with
    | inl h =>
      have : db.rows.length ≠ 0 := by simpa using h
      simp [seed_from_json, this]
    | inr h =>
      subst h
      rw [seed_from_json]
      split
      · rfl
      · rfl

/-- Claim C8: for a version id not present in the store, `get_version`
returns `none` without raising, and the versions-by-id endpoint responds
not-found with the `error` payload rather than failing. -/
theorem C8_get_version_unknown_id (db : DB) (vid : Nat)
    (h : ∀ r ∈ db.rows, r.id ≠ vid) :
    get_version db vid = .ok none
    ∧ versions_get db vid
        = .notFound (Json.obj [("error".toList, Json.str ("not found".toList))]) := by
  have hfind : db.rows.find? (fun r => r.id = vid) = none := by
    rw [List.find?_eq_none]
    intro x hx
    simp [h x hx]
  have h1 : get_version db vid = .ok none := by
    rw [get_version, hfind]
  exact ⟨h1, by rw [versions_get, h1]⟩

/-- Claim C10: the versions-list endpoint always returns at most 50
entries (`list_versions`' default limit, with no way to pass another);
when the store holds more than 50 versions, the older rows are omitted
from the response. -/
theorem C10_versions_list_at_most_50 (db : DB) (hwf : WF db) :
    (versions_list db).length = min 50 db.rows.length
    ∧ (50 < db.rows.length →
        ∀ r ∈ db.rows.take (db.rows.length - 50),
          r.id ∉ (versions_list db).map (fun m => m.id)) := by
  have hsort := sortByIdDesc_of_chain' _ hwf.1
  constructor
  · rw [versions_list, list_versions, hsort]
    simp
  · intro h50 r hr hmem
    have hpw : List.Pairwise (fun a b => a.id < b.id) db.rows :=
      List.chain'_iff_pairwise.mp hwf.1
    have hsplit : db.rows.take (db.rows.length - 50) ++ db.rows.drop (db.rows.length - 50)
        = db.rows := List.take_append_drop _ db.rows
    have hpw2 : List.Pairwise (fun a b => a.id < b.id)
        (db.rows.take (db.rows.length - 50) ++ db.rows.drop (db.rows.length - 50)) := by
      rw [hsplit]; exact hpw
    have hlt : ∀ b ∈ db.rows.drop (db.rows.length - 50), r.id < b.id := by
      intro b hb
      exact (List.pairwise_append.mp hpw2).2.2 r hr b hb
    have hrev : db.rows.reverse.take 50 = (db.rows.drop (db.rows.length - 50)).reverse := by
      conv_lhs => rw [← hsplit]
      rw [List.reverse_append]
      rw [List.take_append_of_le_length (by simp; omega)]
      rw [List.take_of_length_le (by simp; omega)]
    rw [versions_list, list_versions, hsort, hrev] at hmem
    simp only [List.map_map, List.mem_map, Function.comp_def, List.mem_reverse] at hmem
    obtain ⟨b, hb, hbid⟩ := hmem
    have := hlt b hb
    omega

theorem esc_eq_nil_iff (l : Str) : esc l = [] ↔ l = [] := by
  cases l with
  | nil => simp [esc]
  | cons c t =>
    simp only [esc, List.flatMap_cons]
    constructor
    · intro h
      rcases List.append_eq_nil.mp h with ⟨h1, -⟩
      exfalso
      by_cases h1c : c = '&'
      · simp [h1c] at h1
      · by_cases h2c : c = '<'
        · simp [h1c, h2c] at h1
        · by_cases h3c : c = '>'
          · simp [h1c, h2c, h3c] at h1
          · simp [h1c, h2c, h3c] at h1
    · intro h
      exact absurd h (by simp)

/-- Claim C9: the skills section emits, per entry, nothing when the label
or the item list is empty or missing, and exactly one
`<b>label:</b> item, item, ...` paragraph when both are non-empty. -/
theorem C9_skills_entry_emission (skills : List Skill) :
    build_skills skills = section_header ("Skills".toList) ++ skills.flatMap skillEmit
    ∧ (∀ s : Skill,
        (s.label = none ∨ s.label = some [] ∨ s.items = none ∨ s.items = some []) →
        skillEmit s = [])
    ∧ (∀ (s : Skill) (lab : Str) (its : List Str), s.label = some lab → lab ≠ [] →
        s.items = some its → its ≠ [] →
        skillEmit s = [Flowable.para (("<b>".toList ++ esc lab ++ ":</b> ".toList)
          ++ List.intercalate (", ".toList) (its.map esc)) ("body".toList)]) := by
  refine ⟨rfl, ?_, ?_⟩
  · intro s h
    rcases h with h | h | h | h <;>
      simp [skillEmit, h, show esc ([] : Str) = [] from rfl]
  · intro s lab its hlab hlabne hits hitsne
    have : esc lab ≠ [] := fun h => hlabne ((esc_eq_nil_iff lab).mp h)
    simp [skillEmit, hlab, hits, this, hitsne]

theorem sentencesOf_members (desc : Str) :
    ∀ s ∈ sentencesOf desc, s ≠ [] ∧ s.getLast? = some '.' := by
  intro s hs
  rw [sentencesOf] at hs
  simp only [List.mem_map, List.mem_filter] at hs
  obtain ⟨t, ⟨-, htne⟩, rfl⟩ := hs
  have htne2 : t ≠ [] := by simpa using htne
  by_cases h : t.getLast? = some '.'
  · simp [h, htne2]
  · simp only [h, if_neg]
    refine ⟨by simp, ?_⟩
    simp

/-- Claim C3: a role description `"Did X. Did Y."` yields exactly the two
bullet paragraphs `· Did X.` and `· Did Y.`, each ending in exactly one
period; in general the description is split on `". "`, empty fragments
are dropped (no empty bullets), a period is appended to fragments lacking
one, and every emitted bullet sentence ends in a period. -/
theorem C3_description_splitting :
    sentencesOf ("Did X. Did Y.".toList) = ["Did X.".toList, "Did Y.".toList]
    ∧ descBullets ("Did X. Did Y.".toList)
        = [Flowable.para ('·' :: ' ' :: ' ' :: "Did X.".toList) ("bullet".toList),
           Flowable.para ('·' :: ' ' :: ' ' :: "Did Y.".toList) ("bullet".toList)]
    ∧ (∀ s ∈ sentencesOf ("Did X. Did Y.".toList),
        s.getLast? = some '.' ∧ s.dropLast.getLast? ≠ some '.')
    ∧ (∀ desc : Str, descBullets desc = (sentencesOf desc).map
        (fun sent => Flowable.para ('·' :: ' ' :: ' ' :: esc sent) ("bullet".toList)))
    ∧ (∀ (desc : Str) (s : Str), s ∈ sentencesOf desc → s ≠ [] ∧ s.getLast? = some '.')
    ∧ build_experience
        [⟨some ("ACME".toList), some [⟨some ("Dev".toList), none,
          some ("Did X. Did Y.".toList)⟩], none⟩] content_width
        = .ok (section_header ("Experience".toList)
          ++ roleHeaderTable (esc ("ACME".toList)) (esc ("Dev".toList)) (esc []) content_width
            :: (descBullets ("Did X. Did Y.".toList) ++ [Flowable.spacer (2.5 * mm)])) := by
  refine ⟨by decide, by decide, by decide, ?_, fun desc s hs => sentencesOf_members desc s hs, rfl⟩
  intro desc
  by_cases h : desc = []
  · subst h
    rfl
  · simp [descBullets, h]

theorem buildRoles_error_shape (company : Str) (cw : ℚ) : ∀ (roles : List Role) (e : RErr),
    buildRoles company cw roles = .error e → e = .keyError ("title".toList) := by
  intro roles
  induction roles with
  | nil => intro e h; exact absurd h (by simp [buildRoles])
  | cons r rest ih =>
    intro e h
    cases hr : r.title with
    | none =>
      simp [buildRoles, hr] at h
      exact h.symm
    | some t =>
      cases hrec : buildRoles company cw rest with
      | error e2 =>
        simp [buildRoles, hr, hrec] at h
        exact h ▸ ih e2 hrec
      | ok more =>
        simp [buildRoles, hr, hrec] at h

theorem buildRoles_error_of_title (company : Str) (cw : ℚ) : ∀ (roles : List Role),
    (∃ r ∈ roles, r.title = none) →
    buildRoles company cw roles = .error (.keyError ("title".toList)) := by
  intro roles
  induction roles with
  | nil => rintro ⟨r, hmem, -⟩; simp at hmem
  | cons r rest ih =>
    rintro ⟨r0, hmem, hr0⟩
    rcases List.mem_cons.mp hmem with rfl | htail
    · simp [buildRoles, hr0]
    · cases hr : r.title with
      | none => simp [buildRoles, hr]
      | some t => simp [buildRoles, hr, ih ⟨r0, htail, hr0⟩]

theorem buildExps_error_of_company (cw : ℚ) : ∀ (exps : List Experience),
    (∃ e ∈ exps, e.company = none) →
    ∃ k, buildExps cw exps = .error (.keyError k)
      ∧ (k = "company".toList ∨ k = "title".toList) := by
  intro exps
  induction exps with
  | nil => rintro ⟨e, hmem, -⟩; simp at hmem
  | cons e rest ih =>
    rintro ⟨e0, hmem, he0⟩
    rcases List.mem_cons.mp hmem with rfl | htail
    · exact ⟨"company".toList, by simp [buildExps, he0], Or.inl rfl⟩
    · cases hc : e.company with
      | none => exact ⟨"company".toList, by simp [buildExps, hc], Or.inl rfl⟩
      | some comp =>
        cases hbr : buildRoles (esc comp) cw (e.roles.getD []) with
        | error e2 =>
          refine ⟨"title".toList, ?_, Or.inr rfl⟩
          have := buildRoles_error_shape (esc comp) cw (e.roles.getD []) e2 hbr
          subst this
          simp [buildExps, hc, hbr]
        | ok rs =>
          obtain ⟨k, hk, hkor⟩ := ih ⟨e0, htail, he0⟩
          exact ⟨k, by simp [buildExps, hc, hbr, hk], hkor⟩

theorem buildExps_error_of_title (cw : ℚ) : ∀ (exps : List Experience),
    (∃ e ∈ exps, ∃ r ∈ e.roles.getD [], r.title = none) →
    ∃ k, buildExps cw exps = .error (.keyError k)
      ∧ (k = "company".toList ∨ k = "title".toList) := by
  intro exps
  induction exps with
  | nil => rintro ⟨e, hmem, -⟩; simp at hmem
  | cons e rest ih =>
    rintro ⟨e0, hmem, hrole⟩
    rcases List.mem_cons.mp hmem with rfl | htail
    · cases hc : e0.company with
      | none => exact ⟨"company".toList, by simp [buildExps, hc], Or.inl rfl⟩
      | some comp =>
        refine ⟨"title".toList, ?_, Or.inr rfl⟩
        have := buildRoles_error_of_title (esc comp) cw (e0.roles.getD []) hrole
        simp [buildExps, hc, this]
    · cases hc : e.company with
      | none => exact ⟨"company".toList, by simp [buildExps, hc], Or.inl rfl⟩
      | some comp =>
        cases hbr : buildRoles (esc comp) cw (e.roles.getD []) with
        | error e2 =>
          refine ⟨"title".toList, ?_, Or.inr rfl⟩
          have := buildRoles_error_shape (esc comp) cw (e.roles.getD []) e2 hbr
          subst this
          simp [buildExps, hc, hbr]
        | ok rs =>
          obtain ⟨k, hk, hkor⟩ := ih ⟨e0, htail, hrole⟩
          exact ⟨k, by simp [buildExps, hc, hbr, hk], hkor⟩

theorem buildEdus_error_of_institution (cw : ℚ) : ∀ (edus : List Education),
    (∃ e ∈ edus, e.institution = none) →
    buildEdus cw edus = .error (.keyError ("institution".toList)) := by
  intro edus
  induction edus with
  | nil => rintro ⟨e, hmem, -⟩; simp at hmem
  | cons e rest ih =>
    rintro ⟨e0, hmem, he0⟩
    rcases List.mem_cons.mp hmem with rfl | htail
    · simp [buildEdus, he0]
    · cases hc : e.institution with
      | none => simp [buildEdus, hc]
      | some inst =>
        simp [buildEdus, hc, ih ⟨e0, htail, he0⟩]

theorem build_pdf_error_of_exps (d : Doc) (k : Str)
    (herr : buildExps content_width (d.experience.getD []) = .error (.keyError k)) :
    ∃ err, build_pdf d = .error err := by
  have hbe : build_experience (d.experience.getD []) content_width
      = .error (.keyError k) := by
    rw [build_experience, herr]
  cases hc : d.contact with
  | none => exact ⟨.keyError ("contact".toList), by simp [build_pdf, hc]⟩
  | some c =>
    cases hn : c.name with
    | none => exact ⟨.keyError ("name".toList), by simp [build_pdf, hc, hn]⟩
    | some n => exact ⟨.keyError k, by simp [build_pdf, hc, hn, hbe]⟩

theorem build_pdf_error_of_edus (d : Doc)
    (herr : buildEdus content_width (d.education.getD [])
      = .error (.keyError ("institution".toList))) :
    ∃ err, build_pdf d = .error err := by
  have hed : build_education (d.education.getD []) content_width
      = .error (.keyError ("institution".toList)) := by
    rw [build_education, herr]
  cases hc : d.contact with
  | none => exact ⟨.keyError ("contact".toList), by simp [build_pdf, hc]⟩
  | some c =>
    cases hn : c.name with
    | none => exact ⟨.keyError ("name".toList), by simp [build_pdf, hc, hn]⟩
    | some n =>
      cases hbe : build_experience (d.experience.getD []) content_width with
      | error e => exact ⟨e, by simp [build_pdf, hc, hn, hbe]⟩
      | ok expFls =>
        cases hbp : build_projects (d.projects.getD []) with
        | error e => exact ⟨e, by simp [build_pdf, hc, hn, hbe, hbp]⟩
        | ok projFls =>
          exact ⟨.keyError ("institution".toList), by simp [build_pdf, hc, hn, hbe, hbp, hed]⟩

/-- Claim C4 (amended): a document missing a required field (contact.name,
an experience entry's company, a role's title, or an education entry's
institution) fails `build_pdf` with a raised `KeyError` — hence before
any output file is produced — but the error names only the missing key,
not which entity or index it belongs to. -/
theorem C4_missing_required_field_is_fatal :
    (∀ (d : Doc) (c : Contact), d.contact = some c → c.name = none →
        build_pdf d = .error (.keyError ("name".toList)))
    ∧ (∀ d : Doc, (∃ e ∈ d.experience.getD [], e.company = none) →
        ∃ err, build_pdf d = .error err)
    ∧ (∀ d : Doc, (∃ e ∈ d.experience.getD [], ∃ r ∈ e.roles.getD [], r.title = none) →
        ∃ err, build_pdf d = .error err)
    ∧ (∀ d : Doc, (∃ e ∈ d.education.getD [], e.institution = none) →
        ∃ err, build_pdf d = .error err) := by
  refine ⟨?_, ?_, ?_, ?_⟩
  · intro d c hc hn
    simp [build_pdf, hc, hn]
  · intro d h
    obtain ⟨k, hk, -⟩ := buildExps_error_of_company content_width _ h
    exact build_pdf_error_of_exps d k hk
  · intro d h
    obtain ⟨k, hk, -⟩ := buildExps_error_of_title content_width _ h
    exact build_pdf_error_of_exps d k hk
  · intro d h
    exact build_pdf_error_of_edus d (buildEdus_error_of_institution content_width _ h)

/-- Claim C4, counterexample to the original wording: two documents that
differ only in WHICH experience entry is missing its company (index 0
versus index 1) produce the very same error value `KeyError("company")`,
so the error does not identify the missing field's entity/index. -/
theorem C4_counterexample_error_does_not_identify_index :
    build_pdf ⟨some ⟨some ("N".toList), none, none, none, none, none⟩, none, none,
        some [⟨none, some [], none⟩, ⟨some ("B".toList), some [], none⟩], none, none⟩
      = .error (.keyError ("company".toList))
    ∧ build_pdf ⟨some ⟨some ("N".toList), none, none, none, none, none⟩, none, none,
        some [⟨some ("B".toList), some [], none⟩, ⟨none, some [], none⟩], none, none⟩
      = .error (.keyError ("company".toList))
    ∧ (⟨some ⟨some ("N".toList), none, none, none, none, none⟩, none, none,
        some [⟨none, some [], none⟩, ⟨some ("B".toList), some [], none⟩], none, none⟩ : Doc)
      ≠ ⟨some ⟨some ("N".toList), none, none, none, none, none⟩, none, none,
        some [⟨some ("B".toList), some [], none⟩, ⟨none, some [], none⟩], none, none⟩ :=
  ⟨rfl, rfl, by decide⟩

theorem descBullets_no_table (desc : Str) (cells : List (Str × Str)) (ws : List ℚ) :
    Flowable.table cells ws ∉ descBullets desc := by
  rw [descBullets]
  split
  · intro hmem
    simp only [List.mem_map] at hmem
    obtain ⟨a, -, h⟩ := hmem
    exact Flowable.noConfusion h
  · simp

theorem buildRoles_tables (company : Str) (cw : ℚ) : ∀ (roles : List Role) (fls : List Flowable),
    buildRoles company cw roles = .ok fls →
    ∀ (cells : List (Str × Str)) (ws : List ℚ), Flowable.table cells ws ∈ fls →
      ws = [cw - 22 * mm, 22 * mm] := by
  intro roles
  induction roles with
  | nil =>
    intro fls h cells ws hmem
    simp [buildRoles] at h
    subst h
    simp at hmem
  | cons r rest ih =>
    intro fls h cells ws hmem
    cases hr : r.title with
    | none => simp [buildRoles, hr] at h
    | some t =>
      cases hrec : buildRoles company cw rest with
      | error e => simp [buildRoles, hr, hrec] at h
      | ok more =>
        simp [buildRoles, hr, hrec] at h
        subst h
        simp only [List.mem_cons, List.mem_append] at hmem
        rcases hmem with h1 | h1 | h1
        · rw [roleHeaderTable] at h1
          injection h1 with h1a hw
        · exact absurd h1 (descBullets_no_table _ cells ws)
        · rcases h1 with h1 | h1
          · exact Flowable.noConfusion h1
          · exact ih more hrec cells ws h1

theorem buildExps_tables (cw : ℚ) : ∀ (exps : List Experience) (fls : List Flowable),
    buildExps cw exps = .ok fls →
    ∀ (cells : List (Str × Str)) (ws : List ℚ), Flowable.table cells ws ∈ fls →
      ws = [cw - 22 * mm, 22 * mm] := by
  intro exps
  induction exps with
  | nil =>
    intro fls h cells ws hmem
    simp [buildExps] at h
    subst h
    simp at hmem
  | cons e rest ih =>
    intro fls h cells ws hmem
    cases hc : e.company with
    | none => simp [buildExps, hc] at h
    | some comp =>
      cases hbr : buildRoles (esc comp) cw (e.roles.getD []) with
      | error e2 => simp [buildExps, hc, hbr] at h
      | ok rs =>
        cases hrec : buildExps cw rest with
        | error e2 => simp [buildExps, hc, hbr, hrec] at h
        | ok more =>
          simp [buildExps, hc, hbr, hrec] at h
          subst h
          cases hpb : e.pageBreakAfter.getD false with
          | false =>
            simp [hpb] at hmem
            rcases hmem with h1 | h1
            · exact buildRoles_tables (esc comp) cw _ rs hbr cells ws h1
            · exact ih more hrec cells ws h1
          | true =>
            simp [hpb] at hmem
            rcases hmem with h1 | h1
            · exact buildRoles_tables (esc comp) cw _ rs hbr cells ws h1
            · exact ih more hrec cells ws h1

/-- Claim C5 (amended): every two-column role header table emitted by
`build_experience` at the `build_pdf` content width has column widths
`[content_width - 22mm, 22mm]`, i.e. an exact 72/83 ≈ 86.7% / 11/83 ≈
13.3% split (not 78-80% / 20-22%). -/
theorem C5_role_header_width_split (exps : List Experience) (fls : List Flowable)
    (h : build_experience exps content_width = .ok fls) :
    (∀ (cells : List (Str × Str)) (ws : List ℚ), Flowable.table cells ws ∈ fls →
        ws = [content_width - 22 * mm, 22 * mm])
    ∧ (content_width - 22 * mm) / content_width = 72 / 83
    ∧ (22 * mm) / content_width = 11 / 83
    ∧ (86 : ℚ) / 100 < 72 / 83 ∧ (72 : ℚ) / 83 < 87 / 100
    ∧ (13 : ℚ) / 100 < 11 / 83 ∧ (11 : ℚ) / 83 < 14 / 100 := by
  refine ⟨?_, ?_, ?_, by norm_num, by norm_num, by norm_num, by norm_num⟩
  · intro cells ws hmem
    cases hb : buildExps content_width exps with
    | error e =>
      rw [build_experience, hb] at h
      exact absurd h (by simp)
    | ok body =>
      rw [build_experience, hb] at h
      injection h with h
      subst h
      rcases List.mem_append.mp hmem with h1 | h1
      · simp [section_header] at h1
      · exact buildExps_tables content_width exps body hb cells ws h1
  · norm_num [content_width, A4, MARGIN_LR, mm]
  · norm_num [content_width, A4, MARGIN_LR, mm]

/-- Claim C5, counterexample to the stated percentages: the period column
of the role header table is fixed at `22mm` of a `166mm` content width,
which is exactly 11/83 ≈ 13.3% — not within 20-22% — and the title column
gets 72/83 ≈ 86.7% — not within 78-80%. -/
theorem C5_counterexample_width_split_not_as_claimed :
    (∃ cells, roleHeaderTable ("C".toList) ("T".toList) ("P".toList) content_width
        = Flowable.table cells [content_width - 22 * mm, 22 * mm])
    ∧ ¬ ((20 : ℚ) / 100 ≤ (22 * mm) / content_width
          ∧ (22 * mm) / content_width ≤ 22 / 100)
    ∧ ¬ ((78 : ℚ) / 100 ≤ (content_width - 22 * mm) / content_width
          ∧ (content_width - 22 * mm) / content_width ≤ 80 / 100) := by
  refine ⟨⟨_, rfl⟩, ?_, ?_⟩
  · norm_num [content_width, A4, MARGIN_LR, mm]
  · norm_num [content_width, A4, MARGIN_LR, mm]

/-- Witness for C1 at a concrete empty store and the empty-object document. -/
theorem C1_put_then_get_returns_saved_witness :
    WF (⟨[], 0⟩ : DB) ∧ Json.obj [] ≠ Json.null
    ∧ get_cv (save_cv ⟨⟨[], 0⟩, none⟩ (Json.obj []) []).1 = .ok (Json.obj []) :=
  ⟨by decide, fun h => Json.noConfusion h,
    C1_put_then_get_returns_saved ⟨⟨[], 0⟩, none⟩ (Json.obj []) [] (by decide)
      (fun h => Json.noConfusion h)⟩

/-- Witness for C2 at a concrete empty store and two saves. -/
theorem C2_save_ids_strictly_increasing_and_listed_witness :
    WF (⟨[], 0⟩ : DB)
    ∧ List.Chain' (fun a b => a < b)
        (runSaves ⟨[], 0⟩ [(Json.obj [], "manual".toList, []), (Json.null, "manual".toList, [])]).2 :=
  ⟨by decide,
    (C2_save_ids_strictly_increasing_and_listed ⟨[], 0⟩
      [(Json.obj [], "manual".toList, []), (Json.null, "manual".toList, [])] (by decide)).1⟩

/-- Witness for C3's general clause at a concrete description. -/
theorem C3_description_splitting_witness :
    ("A.".toList ∈ sentencesOf ("A".toList))
    ∧ ("A.".toList ≠ [] ∧ ("A.".toList).getLast? = some '.') :=
  ⟨by decide, C3_description_splitting.2.2.2.2.1 ("A".toList) ("A.".toList) (by decide)⟩

/-- Witness for C4 at a concrete document whose contact lacks a name. -/
theorem C4_missing_required_field_is_fatal_witness :
    (⟨some ⟨none, none, none, none, none, none⟩, none, none, none, none, none⟩ : Doc).contact
        = some ⟨none, none, none, none, none, none⟩
    ∧ (⟨none, none, none, none, none, none⟩ : Contact).name = none
    ∧ build_pdf ⟨some ⟨none, none, none, none, none, none⟩, none, none, none, none, none⟩
        = .error (.keyError ("name".toList)) :=
  ⟨rfl, rfl, C4_missing_required_field_is_fatal.1
    ⟨some ⟨none, none, none, none, none, none⟩, none, none, none, none, none⟩
    ⟨none, none, none, none, none, none⟩ rfl rfl⟩

/-- Witness for C5 at the empty experience list. -/
theorem C5_role_header_width_split_witness :
    build_experience [] content_width = .ok (section_header ("Experience".toList) ++ [])
    ∧ (content_width - 22 * mm) / content_width = 72 / 83 :=
  ⟨rfl, (C5_role_header_width_split [] (section_header ("Experience".toList) ++ []) rfl).2.1⟩

/-- Witness for C6's latest-version clause at a one-row store holding
`true`. -/
theorem C6_get_cv_latest_file_skeleton_witness :
    (sortByIdDesc (⟨[⟨1, "true".toList, [], "manual".toList⟩], 1⟩ : DB).rows).head?
        = some ⟨1, "true".toList, [], "manual".toList⟩
    ∧ loads ("true".toList) = some (Json.bool true)
    ∧ Json.bool true ≠ Json.null
    ∧ get_cv ⟨⟨[⟨1, "true".toList, [], "manual".toList⟩], 1⟩, none⟩ = .ok (Json.bool true) :=
  ⟨rfl, rfl, fun h => Json.noConfusion h,
    (C6_get_cv_latest_file_skeleton ⟨⟨[⟨1, "true".toList, [], "manual".toList⟩], 1⟩, none⟩).1
      ⟨1, "true".toList, [], "manual".toList⟩ (Json.bool true) rfl rfl
      (fun h => Json.noConfusion h)⟩

/-- Witness for C7 at a concrete empty store and an existing file. -/
theorem C7_seed_from_json_exactly_when_empty_witness :
    (⟨[], 0⟩ : DB).rows = []
    ∧ seed_from_json ⟨[], 0⟩ (some ("x".toList)) []
        = ⟨[⟨1, "x".toList, [], "import".toList⟩], 1⟩ :=
  ⟨rfl, (C7_seed_from_json_exactly_when_empty ⟨[], 0⟩ (some ("x".toList)) []).1
    ("x".toList) rfl rfl⟩

/-- Witness for C8 at a one-row store and the absent id 2. -/
theorem C8_get_version_unknown_id_witness :
    get_version ⟨[⟨1, "true".toList, [], "manual".toList⟩], 1⟩ 2 = .ok none
    ∧ versions_get ⟨[⟨1, "true".toList, [], "manual".toList⟩], 1⟩ 2
        = .notFound (Json.obj [("error".toList, Json.str ("not found".toList))]) :=
  C8_get_version_unknown_id ⟨[⟨1, "true".toList, [], "manual".toList⟩], 1⟩ 2 (by decide)

/-- Witness for C9 at a concrete empty-label entry and a concrete
populated entry. -/
theorem C9_skills_entry_emission_witness :
    skillEmit ⟨none, none⟩ = []
    ∧ skillEmit ⟨some ("L".toList), some ["a".toList]⟩
        = [Flowable.para (("<b>".toList ++ esc ("L".toList) ++ ":</b> ".toList)
            ++ List.intercalate (", ".toList) ([("a".toList)].map esc)) ("body".toList)] :=
  ⟨(C9_skills_entry_emission []).2.1 ⟨none, none⟩ (Or.inl rfl),
    (C9_skills_entry_emission []).2.2 ⟨some ("L".toList), some ["a".toList]⟩
      ("L".toList) [("a".toList)] rfl (by decide) rfl (by decide)⟩

theorem wf_range_db (n : Nat) :
    WF ⟨(List.range n).map (fun i => ⟨i + 1, [], [], []⟩), n⟩ := by
  constructor
  · apply (List.chain'_map (fun i : Nat => (⟨i + 1, [], [], []⟩ : Row))).mpr
    have h1 : List.Chain' (fun a b => a < b) (List.range n) := by
      rw [List.range_eq_range']
      exact chain'_lt_range' n 0
    exact h1.imp (fun a b hab => by simpa using hab)
  · intro r hr
    simp only [List.mem_map, List.mem_range] at hr
    obtain ⟨i, hi, rfl⟩ := hr
    simpa using hi

/-- Witness for C10 at a concrete 51-row store. -/
theorem C10_versions_list_at_most_50_witness :
    WF (⟨(List.range 51).map (fun i => ⟨i + 1, [], [], []⟩), 51⟩ : DB)
    ∧ (versions_list ⟨(List.range 51).map (fun i => ⟨i + 1, [], [], []⟩), 51⟩).length
        = min 50 (⟨(List.range 51).map (fun i => ⟨i + 1, [], [], []⟩), 51⟩ : DB).rows.length :=
  ⟨wf_range_db 51,
    (C10_versions_list_at_most_50 ⟨(List.range 51).map (fun i => ⟨i + 1, [], [], []⟩), 51⟩
      (wf_range_db 51)).1⟩
